import Mathlib

/-!
Verification of the AFK transport layer (ring-buffer codec, EPIC framing,
synchronous call convention) of the apple-aop driver.  The driver's C
sources are shallowly embedded below: shared memory is a total function
from byte offsets to byte values, 32/16-bit little-endian loads and stores
are explicit, and every fallible operation returns an `Option` or a C-style
integer return code.
-/

namespace AFK

/-! ### Byte-level memory helpers -/

/-- Store the bytes of `l` at consecutive offsets starting at `off`. -/
def writeBytes (buf : ℕ → ℕ) (off : ℕ) : List ℕ → (ℕ → ℕ)
  | [] => buf
  | b :: rest => writeBytes (fun i => if i = off then b else buf i) (off + 1) rest

/-- Little-endian byte image of the low `n` bytes of `v`. -/
def toLEBytes : ℕ → ℕ → List ℕ
  | 0, _ => []
  | n + 1, v => v % 256 :: toLEBytes n (v / 256)

/-- Little-endian load of `n` bytes at `off`. -/
def readLE (buf : ℕ → ℕ) (off : ℕ) : ℕ → ℕ
  | 0 => 0
  | n + 1 => buf off % 256 + 256 * readLE buf (off + 1) n

/-- The `n` bytes stored at offsets `[off, off+n)`. -/
def readBytes (buf : ℕ → ℕ) (off n : ℕ) : List ℕ :=
  (List.range n).map fun i => buf (off + i) % 256

/-- `ALIGN(x, 1 << BLOCK_SHIFT)` with `BLOCK_SHIFT = 6`. -/
def align64 (x : ℕ) : ℕ := ((x + 63) / 64) * 64

/-! ### Wire-format constants

`struct afk_qe` is `magic/size/channel/type`, four little-endian 32-bit
words, followed by `size` data bytes (spec §6), so its header is 16 bytes.
The queue-entry magic constants and the EPIC envelope layouts live in
`afk.h`, which is not part of the sources; they are modelled from the spec
(§4.3, §6) below. -/

def QE_SIZE : ℕ := 16

/-- Modelled from the spec: `afk.h` is missing; the two accepted queue-entry
magic sentinels ("IOP" for host-origin, "AOP" for device-origin framing,
a single bit apart in the first byte). -/
def QE_MAGIC_IOP : ℕ := 0x00504F49

/-- Modelled from the spec: the device-origin magic sentinel. -/
def QE_MAGIC_AOP : ℕ := 0x00504F41

/-- Modelled from the spec: `struct epic_hdr` (outer header: version,
16-bit sequence number, timestamp, padding), 16 bytes. -/
def EHDR_SIZE : ℕ := 16

/-- Modelled from the spec: `struct epic_sub_hdr` (payload length, version,
category, subtype, timestamp, tag, inline-length, padding), 24 bytes. -/
def ESHDR_SIZE : ℕ := 24

/-- Modelled from the spec: EPIC message-type tags (`afk.h` is missing). -/
def EPIC_TYPE_NOTIFY : ℕ := 0
def EPIC_TYPE_COMMAND : ℕ := 3
def EPIC_TYPE_REPLY : ℕ := 4
def EPIC_TYPE_NOTIFY_ACK : ℕ := 8

/-- Modelled from the spec: EPIC category tags (`afk.h` is missing). -/
def EPIC_CAT_REPORT : ℕ := 0x00
def EPIC_CAT_NOTIFY : ℕ := 0x10
def EPIC_CAT_REPLY : ℕ := 0x20
def EPIC_CAT_COMMAND : ℕ := 0x30

/-- Modelled from the spec: bounded pending-command table capacity. -/
def MAX_PENDING_CMDS : ℕ := 16

/-- Modelled from the spec: bounded per-endpoint service capacity. -/
def AFK_MAX_CHANNEL : ℕ := 16

/-- Modelled from the spec: `sizeof(struct epic_cmd)` = retcode (u32) +
two DMA addresses (u64) + two lengths (u32), 28 bytes. -/
def EPIC_CMD_SIZE : ℕ := 28

/-- `sizeof(struct aop_epic_service_init)`, asserted to be 0x2c in the source. -/
def AOP_INIT_SIZE : ℕ := 0x2c

/-! ### Ring buffer state and the TX frame image -/

/-- One AFK ring buffer: the body size read from header block 0, the
read/write pointers held in header blocks 1 and 2, and the body bytes.
The three header blocks live before the body and are modelled as the
`rptr`/`wptr` fields (they are read and stored only through
`afk_rb_get_rptr`/`afk_rb_set_wptr` etc., as 32-bit little-endian words). -/
structure TxRing where
  bufsz : ℕ
  rptr : ℕ
  wptr : ℕ
  buf : ℕ → ℕ

/-- `sizeof(*ehdr) + sizeof(*eshdr) + payload_len` from `afk_send_epic`. -/
def sendTotalEpic (payload : List ℕ) : ℕ := EHDR_SIZE + ESHDR_SIZE + payload.length

/-- The queue-entry header bytes written by `afk_send_epic`
(`hdr->magic/size/channel/type`, each a little-endian 32-bit store). -/
def qeBytes (size channel etype : ℕ) : List ℕ :=
  toLEBytes 4 QE_MAGIC_IOP ++ toLEBytes 4 size ++ toLEBytes 4 channel ++ toLEBytes 4 etype

/-- The outer EPIC header bytes: `memset(ehdr, 0, sizeof(*ehdr))`, then
`version = 2`, `seq` (little-endian 16-bit), `timestamp = 0`. -/
def ehdrBytes (seq : ℕ) : List ℕ :=
  [2] ++ toLEBytes 2 seq ++ List.replicate 5 0 ++ toLEBytes 8 0

/-- The `inline_len` field value: `cpu_to_le16(payload_len - 4)` for
`EPIC_CAT_REPLY` (size_t subtraction truncated to 16 bits), else 0. -/
def inlineLen (plen ecat : ℕ) : ℕ :=
  if ecat = EPIC_CAT_REPLY then (plen + 65532) % 65536 else 0

/-- The EPIC sub-header bytes: `memset` to zero, then `length` (le32),
`version = 4`, `category`, `type` (le16), `timestamp = 0`, `tag` (le16),
`inline_len` (le16), trailing padding. -/
def eshdrBytes (plen ecat stype tag : ℕ) : List ℕ :=
  toLEBytes 4 plen ++ [4] ++ [ecat % 256] ++ toLEBytes 2 stype ++ toLEBytes 8 0 ++
    toLEBytes 2 tag ++ toLEBytes 2 (inlineLen plen ecat) ++ toLEBytes 4 0

/-- The full frame written by `afk_send_epic`: queue-entry header, outer
header, sub-header, payload bytes, contiguous in memory. -/
def frameBytes (seq channel etype ecat stype tag : ℕ) (payload : List ℕ) : List ℕ :=
  qeBytes (sendTotalEpic payload) channel etype ++ ehdrBytes seq ++
    eshdrBytes payload.length ecat stype tag ++ payload

/-- The placement decision of `afk_send_epic` (lines 806-859): returns the
offset of the queue-entry header and whether a duplicated header is placed
at offset 0 (wraparound case), or `none` when the function takes a
`ret = -ENOMEM; goto out` path. -/
def afk_place (bufsz rptr wptr total_size total_epic_size : ℕ) : Option (ℕ × Bool) :=
  if wptr < rptr then
    if rptr < wptr + total_size then none
    else some (wptr, false)
  else
    if bufsz < wptr + QE_SIZE then none
    else if bufsz < wptr + total_size then
      if rptr < QE_SIZE then none
      else if rptr < QE_SIZE + total_epic_size then none
      else some (wptr, true)
    else some (wptr, false)

/-- The new write pointer: advance past the payload, `ALIGN` to the block
unit, wrap to 0 when it lands exactly on the body size, stored as a
little-endian 32-bit word. -/
def sendNewWptr (bufsz hdrOff : ℕ) (dup : Bool) (payload : List ℕ) : ℕ :=
  (if align64 ((if dup then QE_SIZE else hdrOff + QE_SIZE) + sendTotalEpic payload) = bufsz
   then 0
   else align64 ((if dup then QE_SIZE else hdrOff + QE_SIZE) + sendTotalEpic payload)) % 4294967296

/-- Result of `afk_send_epic`: the C return code, the ring state, and the
endpoint's `qe_seq` counter after the call. -/
structure SendResult where
  ret : ℤ
  ring : TxRing
  seqOut : ℕ

/-- `afk_send_epic` (lines 767-909): read the pointers, pick a placement,
write the queue entry (twice in the wraparound case), the EPIC headers and
the payload, then advance and publish the write pointer.  On a failure
path nothing is written and the ring is returned unchanged. -/
def afk_send_epic (r : TxRing) (seq channel tag etype ecat stype : ℕ)
    (payload : List ℕ) : SendResult :=
  match afk_place r.bufsz (r.rptr % 4294967296) (r.wptr % 4294967296)
      (QE_SIZE + sendTotalEpic payload) (sendTotalEpic payload) with
  | none => ⟨-12, r, seq⟩
  | some (hdrOff, dup) =>
      ⟨0,
       { r with
         buf :=
           if dup then
             writeBytes (writeBytes r.buf hdrOff (qeBytes (sendTotalEpic payload) channel etype))
               0 (frameBytes seq channel etype ecat stype tag payload)
           else writeBytes r.buf hdrOff (frameBytes seq channel etype ecat stype tag payload),
         wptr := sendNewWptr r.bufsz hdrOff dup payload },
       (seq + 1) % 65536⟩

/-- The byte region covered by a placement decision: the (possibly
duplicated) queue-entry header plus envelope and payload. -/
def regionOfPlace (tes i : ℕ) : Option (ℕ × Bool) → Bool
  | none => false
  | some (hdrOff, dup) =>
      if dup then
        if (hdrOff ≤ i ∧ i < hdrOff + QE_SIZE) ∨ i < QE_SIZE + tes then true else false
      else
        if hdrOff ≤ i ∧ i < hdrOff + QE_SIZE + tes then true else false

/-- The byte region `afk_send_epic` writes into the body for a given state. -/
def inSendRegion (bufsz rptr wptr tes i : ℕ) : Bool :=
  regionOfPlace tes i (afk_place bufsz rptr wptr (QE_SIZE + tes) tes)

/-- The reserved-for-peer region `[rptr, wptr)` in ring order: the bytes
between the read pointer and the write pointer that the sender must not
touch. -/
def isReserved (rptr wptr bufsz i : ℕ) : Bool :=
  if rptr ≤ wptr then
    if rptr ≤ i ∧ i < wptr then true else false
  else
    if (rptr ≤ i ∧ i < bufsz) ∨ i < wptr then true else false

/-! ### Receive-side decoding -/

/-- The wrap-sentinel handling of `afk_recv` (lines 644-664): when the
entry's declared span overflows the body, restart at offset 0 and
re-validate the magic there; otherwise keep the current read pointer. -/
def afk_recv_wrap (bufsz : ℕ) (buf : ℕ → ℕ) (rptr size : ℕ) : Option (ℕ × ℕ) :=
  if bufsz < rptr + size + QE_SIZE then
    if readLE buf 0 4 ≠ QE_MAGIC_IOP ∧ readLE buf 0 4 ≠ QE_MAGIC_AOP then none
    else some (0, readLE buf 4 4)
  else some (rptr, size)

/-- The advanced read pointer published by `afk_recv` (lines 676-680):
align past the entry, reset on (impossible) overflow, wrap at the end. -/
def recvNewRptr (bufsz rp sz : ℕ) : ℕ :=
  if bufsz < align64 (rp + QE_SIZE + sz) then 0
  else if align64 (rp + QE_SIZE + sz) = bufsz then 0
  else align64 (rp + QE_SIZE + sz)

/-- The queue-entry decoding core of `afk_recv` (lines 628-694): read and
validate the magic, read the declared size, treat an entry whose span
overflows the body as a wrap sentinel and restart at offset 0, re-validate
bounds, extract channel/type/data, and compute the advanced (aligned,
wrapped) read pointer. -/
def afk_recv_decode (bufsz : ℕ) (buf : ℕ → ℕ) (rptr : ℕ) : Option (ℕ × ℕ × List ℕ × ℕ) :=
  if readLE buf rptr 4 ≠ QE_MAGIC_IOP ∧ readLE buf rptr 4 ≠ QE_MAGIC_AOP then none
  else
    match afk_recv_wrap bufsz buf rptr (readLE buf (rptr + 4) 4) with
    | none => none
    | some (rp, sz) =>
        if bufsz < rp + sz + QE_SIZE then none
        else
          some (readLE buf (rp + 8) 4, readLE buf (rp + 12) 4,
            readBytes buf (rp + QE_SIZE) sz, recvNewRptr bufsz rp sz)

/-! ### Buffer negotiation: `afk_getbuf` and `afk_init_rxtx` -/

/-- The endpoint's staging-buffer state used by `afk_getbuf`. -/
structure GetbufEp where
  bfrExists : Bool
  bfr_size : ℕ
  bfr_tag : ℕ
deriving DecidableEq

/-- `afk_getbuf` (lines 168-196): if the staging buffer already exists the
message is rejected with no reply; otherwise (when the DMA allocation
succeeds, with device address `dva`) the size and tag are recorded and a
`GETBUF_ACK` reply carrying the device address is sent. -/
def afk_getbuf (ep : GetbufEp) (message : ℕ) (allocOk : Bool) (dva : ℕ) :
    GetbufEp × Option ℕ :=
  if ep.bfrExists then (ep, none)
  else if allocOk = false then (ep, none)
  else (⟨true, ((message / 65536) % 65536) * 64, message % 65536⟩,
        some (0xa1 * 2 ^ 48 + dva % 2 ^ 48))

/-- The endpoint state consulted by `afk_init_rxtx`: the staging buffer's
size and tag, and its byte contents. -/
structure InitEp where
  bfr_size : ℕ
  bfr_tag : ℕ
  bfrBytes : ℕ → ℕ

/-- `afk_init_rxtx` (lines 242-322): decode `(offset, size, tag)` from the
message, validate the tag, that the buffer is not already initialized, the
bounds against the staging buffer, read the body size from the ring's own
header block 0, and validate the header-size split into three aligned
blocks.  Returns `some (bufsz, blksz)` when the ring is marked ready. -/
def afk_init_rxtx (ep : InitEp) (ready : Bool) (message : ℕ) : Option (ℕ × ℕ) :=
  if message % 65536 ≠ ep.bfr_tag then none
  else if ready then none
  else if ep.bfr_size ≤ ((message / 4294967296) % 65536) * 64 then none
  else if ep.bfr_size < ((message / 4294967296) % 65536) * 64 + ((message / 65536) % 65536) * 64
    then none
  else
    if ((message / 65536) % 65536) * 64 ≤
        readLE ep.bfrBytes (((message / 4294967296) % 65536) * 64) 4 then none
    else
      if (((message / 65536) % 65536) * 64 -
           readLE ep.bfrBytes (((message / 4294967296) % 65536) * 64) 4) % 3 ≠ 0 then none
      else
        if (((message / 65536) % 65536) * 64 -
             readLE ep.bfrBytes (((message / 4294967296) % 65536) * 64) 4) / 3 < 64 ∨
           ((((message / 65536) % 65536) * 64 -
             readLE ep.bfrBytes (((message / 4294967296) % 65536) * 64) 4) / 3) % 64 ≠ 0
        then none
        else
          some (readLE ep.bfrBytes (((message / 4294967296) % 65536) * 64) 4,
            (((message / 65536) % 65536) * 64 -
              readLE ep.bfrBytes (((message / 4294967296) % 65536) * 64) 4) / 3)

/-! ### Pending commands: reply matching and the timeout handoff -/

/-- One slot of a service's pending-command table. -/
structure PendingCmd where
  tag : ℕ
  done : Bool
  free_on_ack : Bool
  retcode : ℕ
  completionAttached : Bool
  rxbufSet : Bool
  txbufSet : Bool
  rxlen : ℕ
  txlen : ℕ
deriving DecidableEq

/-- A service's command state: the slot table and the allocation bitmap. -/
structure SvcState where
  cmds : ℕ → PendingCmd
  cmdMap : ℕ → Bool

/-- The externally visible effects of one `afk_recv_handle_reply` call. -/
structure ReplyEffects where
  accepted : Bool
  freedRx : Bool
  freedTx : Bool
  releasedSlot : Bool
  signaled : Bool
deriving DecidableEq

def noReplyEffects : ReplyEffects := ⟨false, false, false, false, false⟩

/-- Little-endian value of the first four payload bytes (`cmd->retcode`). -/
def listLE32 (l : List ℕ) : ℕ :=
  l.getD 0 0 % 256 + 256 * (l.getD 1 0 % 256) + 65536 * (l.getD 2 0 % 256) +
    16777216 * (l.getD 3 0 % 256)

/-- `afk_recv_handle_reply` (lines 377-450), from the point where the
service is known: drop a too-small payload, an out-of-range tag index, an
already-done slot, or a mismatched tag; otherwise mark the slot done,
record the return code, defer-free the DMA buffers and release the tag
slot when `free_on_ack` was set, and signal any attached completion. -/
def afk_recv_handle_reply (s : SvcState) (tag : ℕ) (payload : List ℕ) :
    SvcState × ReplyEffects :=
  if payload.length < EPIC_CMD_SIZE then (s, noReplyEffects)
  else if MAX_PENDING_CMDS ≤ tag % 256 then (s, noReplyEffects)
  else if (s.cmds (tag % 256)).done then (s, noReplyEffects)
  else if tag ≠ (s.cmds (tag % 256)).tag then (s, noReplyEffects)
  else
    (⟨fun j => if j = tag % 256 then
         { s.cmds (tag % 256) with done := true, retcode := listLE32 payload }
       else s.cmds j,
      if (s.cmds (tag % 256)).free_on_ack then
        fun j => if j = tag % 256 then false else s.cmdMap j
      else s.cmdMap⟩,
     ⟨true,
      (s.cmds (tag % 256)).free_on_ack && (s.cmds (tag % 256)).rxbufSet &&
        ((s.cmds (tag % 256)).rxlen != 0),
      (s.cmds (tag % 256)).free_on_ack && (s.cmds (tag % 256)).txbufSet &&
        ((s.cmds (tag % 256)).txlen != 0),
      (s.cmds (tag % 256)).free_on_ack,
      (s.cmds (tag % 256)).completionAttached⟩)

/-- The externally visible effects of the waiter's post-wait path. -/
structure WaiterEffects where
  freedRx : Bool
  freedTx : Bool
  releasedSlot : Bool
  copiedOutput : Bool
deriving DecidableEq

def noWaiterEffects : WaiterEffects := ⟨false, false, false, false⟩

/-- The lock-protected recheck in `afk_send_command` after
`wait_for_completion_timeout` returned 0 (lines 978-1008): if the command
is genuinely still pending, detach the completion, set `free_on_ack` and
return `-ETIMEDOUT` without freeing anything; otherwise fall through to
the success path, which releases the tag slot and frees both DMA buffers
synchronously and returns 0. -/
def afk_send_command_timeout_recheck (s : SvcState) (idx : ℕ) :
    ℤ × SvcState × WaiterEffects :=
  if (s.cmds idx).done = false then
    (-110,
     ⟨fun j => if j = idx then
         { s.cmds idx with completionAttached := false, free_on_ack := true }
       else s.cmds j,
      s.cmdMap⟩,
     noWaiterEffects)
  else
    (0, ⟨s.cmds, fun j => if j = idx then false else s.cmdMap j⟩,
     ⟨true, true, true, true⟩)

/-! ### Service registry and the AOP announce handler -/

structure ServiceEntry where
  enabled : Bool
  channel : ℕ
deriving DecidableEq

/-- The per-endpoint service table consulted by `afk_epic_find_service`
and populated by `apple_aop_recv_handle_init`. -/
structure EpRegistry where
  num_channels : ℕ
  services : ℕ → ServiceEntry
  opsNames : List String

/-- `afk_match_service` (lines 324-342): reject an empty name, then scan
the static ops table for an exact name match. -/
def afk_match_service (table : List String) (name : String) : Bool :=
  if name = ("") then false else table.contains name

/-- `afk_epic_find_service` (lines 344-352): the first enabled service
entry whose channel matches. -/
def afk_epic_find_service (st : EpRegistry) (channel : ℕ) : Option ℕ :=
  (List.range st.num_channels).find? fun i =>
    (st.services i).enabled && ((st.services i).channel == channel)

/-- `apple_aop_recv_handle_init` (lines 1133-1177): drop a too-small
payload, reject when the service table is full, `WARN_ON` (log only) when
the announced channel already has a service, match the announced name
against the ops table, and on a match register a new enabled service for
the announced channel.  The `WARN_ON` does not reject the announce. -/
def apple_aop_recv_handle_init (st : EpRegistry) (payloadName : String)
    (payloadChannel : ℕ) (payload_size : ℕ) : EpRegistry :=
  if payload_size < AOP_INIT_SIZE then st
  else if AFK_MAX_CHANNEL ≤ st.num_channels then st
  else if afk_match_service st.opsNames payloadName = false then st
  else
    ⟨st.num_channels + 1,
     fun j => if j = st.num_channels then ⟨true, payloadChannel⟩ else st.services j,
     st.opsNames⟩

/-- The number of enabled service entries registered for a channel. -/
def countEnabled (st : EpRegistry) (channel : ℕ) : ℕ :=
  ((List.range st.num_channels).filter fun i =>
    (st.services i).enabled && ((st.services i).channel == channel)).length

/-! ### Lemmas about the byte-level helpers -/

theorem writeBytes_outside (l : List ℕ) : ∀ (buf : ℕ → ℕ) (off i : ℕ),
    i < off ∨ off + l.length ≤ i → writeBytes buf off l i = buf i := by
  induction l with
  | nil => intro buf off i _; rfl
  | cons b rest ih =>
      intro buf off i h
      have h1 : i < off + 1 ∨ (off + 1) + rest.length ≤ i := by
        rcases h with h | h
        · exact Or.inl (by omega)
        · exact Or.inr (by simp only [List.length_cons] at h; omega)
      have hne : i ≠ off := by
        rcases h with h | h
        · omega
        · simp only [List.length_cons] at h; omega
      rw [writeBytes, ih _ _ _ h1]
      simp [hne]

theorem writeBytes_getD (l : List ℕ) : ∀ (buf : ℕ → ℕ) (off k : ℕ), k < l.length →
    writeBytes buf off l (off + k) = l.getD k 0 := by
  induction l with
  | nil => intro _ _ k h; simp at h
  | cons b rest ih =>
      intro buf off k h
      match k with
      | 0 =>
          rw [writeBytes, writeBytes_outside rest _ _ _ (Or.inl (by omega))]
          simp
      | k + 1 =>
          rw [writeBytes, show off + (k + 1) = (off + 1) + k by omega,
            ih _ _ _ (by simp only [List.length_cons] at h; omega)]
          simp

theorem writeBytes_append (l₁ l₂ : List ℕ) : ∀ (buf : ℕ → ℕ) (off : ℕ),
    writeBytes buf off (l₁ ++ l₂) =
      writeBytes (writeBytes buf off l₁) (off + l₁.length) l₂ := by
  induction l₁ with
  | nil => intro buf off; rfl
  | cons b rest ih =>
      intro buf off
      show writeBytes _ (off + 1) (rest ++ l₂) = _
      rw [ih, List.length_cons, show off + 1 + rest.length = off + (rest.length + 1) by omega]
      rfl

theorem readLE_congr : ∀ (n : ℕ) (buf₁ buf₂ : ℕ → ℕ) (off₁ off₂ : ℕ),
    (∀ j, j < n → buf₁ (off₁ + j) = buf₂ (off₂ + j)) →
    readLE buf₁ off₁ n = readLE buf₂ off₂ n := by
  intro n
  induction n with
  | zero => intro _ _ _ _ _; rfl
  | succ n ih =>
      intro buf₁ buf₂ off₁ off₂ h
      have h0 := h 0 (by omega)
      simp only [Nat.add_zero] at h0
      rw [readLE, readLE, h0,
        ih buf₁ buf₂ (off₁ + 1) (off₂ + 1) fun j hj => by
          have hh := h (j + 1) (by omega)
          have e₁ : off₁ + (j + 1) = off₁ + 1 + j := by omega
          have e₂ : off₂ + (j + 1) = off₂ + 1 + j := by omega
          rw [e₁, e₂] at hh
          exact hh]

theorem mod_mul_256 (q r M : ℕ) (hr : r < 256) (hM : 0 < M) :
    (256 * q + r) % (256 * M) = 256 * (q % M) + r := by
  conv_lhs => rw [show q = M * (q / M) + q % M from (Nat.div_add_mod q M).symm]
  rw [show 256 * (M * (q / M) + q % M) + r =
    (256 * (q % M) + r) + (256 * M) * (q / M) by ring]
  rw [Nat.add_mul_mod_self_left]
  have hlt : 256 * (q % M) + r < 256 * M := by
    have : q % M < M := Nat.mod_lt _ hM
    omega
  exact Nat.mod_eq_of_lt hlt

theorem readLE_writeBytes_toLE : ∀ (n : ℕ) (v : ℕ) (buf : ℕ → ℕ) (off : ℕ),
    readLE (writeBytes buf off (toLEBytes n v)) off n = v % 256 ^ n := by
  intro n
  induction n with
  | zero => intro v buf off; simp [readLE, toLEBytes, Nat.mod_one]
  | succ n ih =>
      intro v buf off
      rw [toLEBytes, writeBytes, readLE]
      have h1 : writeBytes (fun i => if i = off then v % 256 else buf i) (off + 1)
          (toLEBytes n (v / 256)) off = v % 256 := by
        rw [writeBytes_outside _ _ _ _ (Or.inl (by omega))]
        simp
      rw [h1, ih (v / 256) _ (off + 1)]
      have h2 : v % 256 % 256 = v % 256 :=
        Nat.mod_eq_of_lt (Nat.mod_lt _ (by omega))
      rw [h2, pow_succ']
      conv_rhs => rw [show v = 256 * (v / 256) + v % 256 from (Nat.div_add_mod v 256).symm]
      rw [mod_mul_256 _ _ _ (Nat.mod_lt _ (by omega)) (pow_pos (by omega) n)]
      ring

theorem toLEBytes_length : ∀ (n v : ℕ), (toLEBytes n v).length = n := by
  intro n
  induction n with
  | zero => intro v; rfl
  | succ n ih => intro v; simp [toLEBytes, ih]

theorem readLE_writeBytes_slice (buf : ℕ → ℕ) (off : ℕ) (pre : List ℕ) (n v : ℕ)
    (post : List ℕ) :
    readLE (writeBytes buf off (pre ++ (toLEBytes n v ++ post))) (off + pre.length) n =
      v % 256 ^ n := by
  rw [writeBytes_append, writeBytes_append]
  rw [readLE_congr n _
    (writeBytes (writeBytes buf off pre) (off + pre.length) (toLEBytes n v)) _
    (off + pre.length) fun j hj =>
      writeBytes_outside _ _ _ _ (Or.inl (by rw [toLEBytes_length]; omega))]
  exact readLE_writeBytes_toLE n v _ _

theorem readLE_writeBytes_outside (buf : ℕ → ℕ) (off o n : ℕ) (l : List ℕ)
    (h : off + l.length ≤ o ∨ o + n ≤ off) :
    readLE (writeBytes buf off l) o n = readLE buf o n := by
  apply readLE_congr
  intro j hj
  apply writeBytes_outside
  rcases h with h | h
  · exact Or.inr (by omega)
  · exact Or.inl (by omega)

theorem readBytes_congr (buf₁ buf₂ : ℕ → ℕ) (off₁ off₂ n : ℕ)
    (h : ∀ j, j < n → buf₁ (off₁ + j) = buf₂ (off₂ + j)) :
    readBytes buf₁ off₁ n = readBytes buf₂ off₂ n := by
  unfold readBytes
  refine List.map_congr_left ?_
  intro i hi
  rw [List.mem_range] at hi
  rw [h i hi]

theorem readBytes_writeBytes (l : List ℕ) (buf : ℕ → ℕ) (off : ℕ) :
    readBytes (writeBytes buf off l) off l.length = l.map (· % 256) := by
  unfold readBytes
  apply List.ext_getElem
  · simp
  · intro i h1 h2
    simp only [List.getElem_map, List.getElem_range]
    rw [writeBytes_getD l buf off i (by simpa using h1)]
    rw [List.getD_eq_getElem l 0 (by simpa using h1)]

theorem readBytes_writeBytes_slice (buf : ℕ → ℕ) (off : ℕ) (pre mid post : List ℕ) :
    readBytes (writeBytes buf off (pre ++ (mid ++ post))) (off + pre.length) mid.length =
      mid.map (· % 256) := by
  rw [writeBytes_append, writeBytes_append]
  rw [readBytes_congr _
    (writeBytes (writeBytes buf off pre) (off + pre.length) mid) _ (off + pre.length) _
    fun j hj => writeBytes_outside _ _ _ _ (Or.inl (by omega))]
  exact readBytes_writeBytes mid _ _

theorem map_mod_id {l : List ℕ} (h : ∀ b ∈ l, b < 256) : l.map (· % 256) = l := by
  conv_rhs => rw [show l = l.map id from (List.map_id l).symm]
  exact List.map_congr_left fun b hb => Nat.mod_eq_of_lt (h b hb)

theorem align64_ge (x : ℕ) : x ≤ align64 x := by unfold align64; omega

theorem align64_lt (x : ℕ) : align64 x < x + 64 := by unfold align64; omega

theorem align64_le_of_dvd (x m : ℕ) (h64 : 64 ∣ m) (hx : x ≤ m) : align64 x ≤ m := by
  unfold align64
  obtain ⟨k, rfl⟩ := h64
  omega

theorem iteb_true_iff {p : Prop} [Decidable p] : (if p then true else false) = true ↔ p := by
  by_cases h : p <;> simp [h]

theorem iteb_false_iff {p : Prop} [Decidable p] :
    (if p then true else false) = false ↔ ¬p := by
  by_cases h : p <;> simp [h]

theorem qeBytes_length (size channel etype : ℕ) : (qeBytes size channel etype).length = 16 := by
  simp [qeBytes, toLEBytes_length]

theorem ehdrBytes_length (seq : ℕ) : (ehdrBytes seq).length = 16 := by
  simp [ehdrBytes, toLEBytes_length]

theorem eshdrBytes_length (plen ecat stype tag : ℕ) :
    (eshdrBytes plen ecat stype tag).length = 24 := by
  simp [eshdrBytes, toLEBytes_length]

theorem frameBytes_length (seq channel etype ecat stype tag : ℕ) (payload : List ℕ) :
    (frameBytes seq channel etype ecat stype tag payload).length = 56 + payload.length := by
  simp [frameBytes, qeBytes_length, ehdrBytes_length, eshdrBytes_length,
    qeBytes, ehdrBytes, eshdrBytes, toLEBytes_length]
  omega

/-! ### Placement case analysis for `afk_send_epic` -/

theorem afk_place_lt_fail {bufsz rptr wptr ts tes : ℕ} (h1 : wptr < rptr)
    (h2 : rptr < wptr + ts) : afk_place bufsz rptr wptr ts tes = none := by
  unfold afk_place
  rw [if_pos h1, if_pos h2]

theorem afk_place_lt_fits {bufsz rptr wptr ts tes : ℕ} (h1 : wptr < rptr)
    (h2 : ¬rptr < wptr + ts) : afk_place bufsz rptr wptr ts tes = some (wptr, false) := by
  unfold afk_place
  rw [if_pos h1, if_neg h2]

theorem afk_place_hdr_fail {bufsz rptr wptr ts tes : ℕ} (h1 : ¬wptr < rptr)
    (h2 : bufsz < wptr + QE_SIZE) : afk_place bufsz rptr wptr ts tes = none := by
  unfold afk_place
  rw [if_neg h1, if_pos h2]

theorem afk_place_ge_fits {bufsz rptr wptr ts tes : ℕ} (h1 : ¬wptr < rptr)
    (h2 : ¬bufsz < wptr + QE_SIZE) (h3 : ¬bufsz < wptr + ts) :
    afk_place bufsz rptr wptr ts tes = some (wptr, false) := by
  unfold afk_place
  rw [if_neg h1, if_neg h2, if_neg h3]

theorem afk_place_wrap {bufsz rptr wptr ts tes : ℕ} (h1 : ¬wptr < rptr)
    (h2 : ¬bufsz < wptr + QE_SIZE) (h3 : bufsz < wptr + ts) (h4 : ¬rptr < QE_SIZE)
    (h5 : ¬rptr < QE_SIZE + tes) : afk_place bufsz rptr wptr ts tes = some (wptr, true) := by
  unfold afk_place
  rw [if_neg h1, if_neg h2, if_pos h3, if_neg h4, if_neg h5]

theorem afk_place_wrap_fail1 {bufsz rptr wptr ts tes : ℕ} (h1 : ¬wptr < rptr)
    (h2 : ¬bufsz < wptr + QE_SIZE) (h3 : bufsz < wptr + ts) (h4 : rptr < QE_SIZE) :
    afk_place bufsz rptr wptr ts tes = none := by
  unfold afk_place
  rw [if_neg h1, if_neg h2, if_pos h3, if_pos h4]

theorem afk_place_wrap_fail2 {bufsz rptr wptr ts tes : ℕ} (h1 : ¬wptr < rptr)
    (h2 : ¬bufsz < wptr + QE_SIZE) (h3 : bufsz < wptr + ts) (h4 : ¬rptr < QE_SIZE)
    (h5 : rptr < QE_SIZE + tes) : afk_place bufsz rptr wptr ts tes = none := by
  unfold afk_place
  rw [if_neg h1, if_neg h2, if_pos h3, if_neg h4, if_pos h5]

theorem afk_send_epic_none (r : TxRing) (seq channel tag etype ecat stype : ℕ)
    (payload : List ℕ)
    (hpl : afk_place r.bufsz (r.rptr % 4294967296) (r.wptr % 4294967296)
      (QE_SIZE + sendTotalEpic payload) (sendTotalEpic payload) = none) :
    afk_send_epic r seq channel tag etype ecat stype payload = ⟨-12, r, seq⟩ := by
  unfold afk_send_epic
  rw [hpl]

theorem afk_send_epic_some (r : TxRing) (seq channel tag etype ecat stype : ℕ)
    (payload : List ℕ) (hdrOff : ℕ) (dup : Bool)
    (hpl : afk_place r.bufsz (r.rptr % 4294967296) (r.wptr % 4294967296)
      (QE_SIZE + sendTotalEpic payload) (sendTotalEpic payload) = some (hdrOff, dup)) :
    afk_send_epic r seq channel tag etype ecat stype payload =
      ⟨0,
       { r with
         buf :=
           if dup then
             writeBytes (writeBytes r.buf hdrOff (qeBytes (sendTotalEpic payload) channel etype))
               0 (frameBytes seq channel etype ecat stype tag payload)
           else writeBytes r.buf hdrOff (frameBytes seq channel etype ecat stype tag payload),
         wptr := sendNewWptr r.bufsz hdrOff dup payload },
       (seq + 1) % 65536⟩ := by
  unfold afk_send_epic
  rw [hpl]

theorem afk_send_epic_some_false (r : TxRing) (seq channel tag etype ecat stype : ℕ)
    (payload : List ℕ) (hdrOff : ℕ)
    (hpl : afk_place r.bufsz (r.rptr % 4294967296) (r.wptr % 4294967296)
      (QE_SIZE + sendTotalEpic payload) (sendTotalEpic payload) = some (hdrOff, false)) :
    afk_send_epic r seq channel tag etype ecat stype payload =
      ⟨0,
       { r with
         buf := writeBytes r.buf hdrOff (frameBytes seq channel etype ecat stype tag payload),
         wptr := sendNewWptr r.bufsz hdrOff false payload },
       (seq + 1) % 65536⟩ := by
  unfold afk_send_epic
  rw [hpl]
  rfl

theorem afk_send_epic_some_true (r : TxRing) (seq channel tag etype ecat stype : ℕ)
    (payload : List ℕ) (hdrOff : ℕ)
    (hpl : afk_place r.bufsz (r.rptr % 4294967296) (r.wptr % 4294967296)
      (QE_SIZE + sendTotalEpic payload) (sendTotalEpic payload) = some (hdrOff, true)) :
    afk_send_epic r seq channel tag etype ecat stype payload =
      ⟨0,
       { r with
         buf := writeBytes
             (writeBytes r.buf hdrOff (qeBytes (sendTotalEpic payload) channel etype))
             0 (frameBytes seq channel etype ecat stype tag payload),
         wptr := sendNewWptr r.bufsz hdrOff true payload },
       (seq + 1) % 65536⟩ := by
  unfold afk_send_epic
  rw [hpl]
  rfl

theorem regionOfPlace_some_false (tes i hdrOff : ℕ) :
    regionOfPlace tes i (some (hdrOff, false)) =
      if hdrOff ≤ i ∧ i < hdrOff + QE_SIZE + tes then true else false := rfl

theorem regionOfPlace_some_true (tes i hdrOff : ℕ) :
    regionOfPlace tes i (some (hdrOff, true)) =
      if (hdrOff ≤ i ∧ i < hdrOff + QE_SIZE) ∨ i < QE_SIZE + tes then true else false := rfl

theorem toLEBytes_mem_lt : ∀ (n v b : ℕ), b ∈ toLEBytes n v → b < 256 := by
  intro n
  induction n with
  | zero => intro v b h; simp [toLEBytes] at h
  | succ n ih =>
      intro v b h
      simp only [toLEBytes, List.mem_cons] at h
      rcases h with h | h
      · omega
      · exact ih _ _ h

theorem ehdrBytes_mem_lt (seq b : ℕ) (h : b ∈ ehdrBytes seq) : b < 256 := by
  simp only [ehdrBytes, List.mem_append, List.mem_singleton, List.mem_replicate] at h
  rcases h with ((h | h) | h) | h
  · omega
  · exact toLEBytes_mem_lt _ _ _ h
  · omega
  · exact toLEBytes_mem_lt _ _ _ h

theorem eshdrBytes_mem_lt (plen ecat stype tag b : ℕ)
    (h : b ∈ eshdrBytes plen ecat stype tag) : b < 256 := by
  simp only [eshdrBytes, List.mem_append, List.mem_singleton] at h
  rcases h with ((((((h | h) | h) | h) | h) | h) | h) | h
  · exact toLEBytes_mem_lt _ _ _ h
  · omega
  · omega
  · exact toLEBytes_mem_lt _ _ _ h
  · exact toLEBytes_mem_lt _ _ _ h
  · exact toLEBytes_mem_lt _ _ _ h
  · exact toLEBytes_mem_lt _ _ _ h
  · exact toLEBytes_mem_lt _ _ _ h

/-! ### Readback of the frame written by `afk_send_epic` -/

theorem qeBytes_decomp_magic (size channel etype : ℕ) : qeBytes size channel etype =
    ([] : List ℕ) ++ (toLEBytes 4 QE_MAGIC_IOP ++
      (toLEBytes 4 size ++ (toLEBytes 4 channel ++ toLEBytes 4 etype))) := by
  rw [List.nil_append]
  unfold qeBytes
  rw [List.append_assoc, List.append_assoc]

theorem qeBytes_decomp_size (size channel etype : ℕ) : qeBytes size channel etype =
    toLEBytes 4 QE_MAGIC_IOP ++
      (toLEBytes 4 size ++ (toLEBytes 4 channel ++ toLEBytes 4 etype)) := by
  unfold qeBytes
  rw [List.append_assoc, List.append_assoc]

theorem qeBytes_decomp_channel (size channel etype : ℕ) : qeBytes size channel etype =
    (toLEBytes 4 QE_MAGIC_IOP ++ toLEBytes 4 size) ++
      (toLEBytes 4 channel ++ toLEBytes 4 etype) := by
  unfold qeBytes
  rw [List.append_assoc (toLEBytes 4 QE_MAGIC_IOP ++ toLEBytes 4 size)]

theorem qeBytes_decomp_etype (size channel etype : ℕ) : qeBytes size channel etype =
    (toLEBytes 4 QE_MAGIC_IOP ++ toLEBytes 4 size ++ toLEBytes 4 channel) ++
      (toLEBytes 4 etype ++ ([] : List ℕ)) := by
  rw [List.append_nil]
  unfold qeBytes
  rfl

theorem readLE_qeBytes_magic (buf : ℕ → ℕ) (off size channel etype : ℕ) :
    readLE (writeBytes buf off (qeBytes size channel etype)) off 4 = QE_MAGIC_IOP := by
  rw [qeBytes_decomp_magic]
  have h := readLE_writeBytes_slice buf off ([] : List ℕ) 4 QE_MAGIC_IOP
    (toLEBytes 4 size ++ (toLEBytes 4 channel ++ toLEBytes 4 etype))
  rw [List.length_nil, Nat.add_zero] at h
  rw [h]
  decide

theorem readLE_qeBytes_size (buf : ℕ → ℕ) (off size channel etype : ℕ) :
    readLE (writeBytes buf off (qeBytes size channel etype)) (off + 4) 4 =
      size % 4294967296 := by
  rw [qeBytes_decomp_size]
  have h := readLE_writeBytes_slice buf off (toLEBytes 4 QE_MAGIC_IOP) 4 size
    (toLEBytes 4 channel ++ toLEBytes 4 etype)
  rw [toLEBytes_length] at h
  rw [h]
  norm_num

theorem readLE_qeBytes_channel (buf : ℕ → ℕ) (off size channel etype : ℕ) :
    readLE (writeBytes buf off (qeBytes size channel etype)) (off + 8) 4 =
      channel % 4294967296 := by
  rw [qeBytes_decomp_channel]
  have h := readLE_writeBytes_slice buf off (toLEBytes 4 QE_MAGIC_IOP ++ toLEBytes 4 size)
    4 channel (toLEBytes 4 etype)
  rw [List.length_append, toLEBytes_length, toLEBytes_length,
    show (4 : ℕ) + 4 = 8 from rfl] at h
  rw [h]
  norm_num

theorem readLE_qeBytes_etype (buf : ℕ → ℕ) (off size channel etype : ℕ) :
    readLE (writeBytes buf off (qeBytes size channel etype)) (off + 12) 4 =
      etype % 4294967296 := by
  rw [qeBytes_decomp_etype]
  have h := readLE_writeBytes_slice buf off
    (toLEBytes 4 QE_MAGIC_IOP ++ toLEBytes 4 size ++ toLEBytes 4 channel) 4 etype
    ([] : List ℕ)
  rw [List.length_append, List.length_append, toLEBytes_length, toLEBytes_length,
    toLEBytes_length, show (4 : ℕ) + 4 + 4 = 12 from rfl] at h
  rw [h]
  norm_num

theorem frameBytes_decomp (seq channel etype ecat stype tag : ℕ) (payload : List ℕ) :
    frameBytes seq channel etype ecat stype tag payload =
      qeBytes (sendTotalEpic payload) channel etype ++
        ((ehdrBytes seq ++ eshdrBytes payload.length ecat stype tag ++ payload) ++
          ([] : List ℕ)) := by
  rw [List.append_nil]
  unfold frameBytes
  rw [List.append_assoc (qeBytes (sendTotalEpic payload) channel etype) (ehdrBytes seq),
    List.append_assoc (qeBytes (sendTotalEpic payload) channel etype)]

theorem frame_read_magic (buf : ℕ → ℕ) (off seq channel etype ecat stype tag : ℕ)
    (payload : List ℕ) :
    readLE (writeBytes buf off (frameBytes seq channel etype ecat stype tag payload)) off 4 =
      QE_MAGIC_IOP := by
  rw [frameBytes_decomp, writeBytes_append]
  rw [readLE_writeBytes_outside _ _ _ _ _ (Or.inr (by rw [qeBytes_length]; omega))]
  exact readLE_qeBytes_magic ..

theorem frame_read_size (buf : ℕ → ℕ) (off seq channel etype ecat stype tag : ℕ)
    (payload : List ℕ) :
    readLE (writeBytes buf off (frameBytes seq channel etype ecat stype tag payload))
      (off + 4) 4 = sendTotalEpic payload % 4294967296 := by
  rw [frameBytes_decomp, writeBytes_append]
  rw [readLE_writeBytes_outside _ _ _ _ _ (Or.inr (by rw [qeBytes_length]; omega))]
  exact readLE_qeBytes_size ..

theorem frame_read_channel (buf : ℕ → ℕ) (off seq channel etype ecat stype tag : ℕ)
    (payload : List ℕ) :
    readLE (writeBytes buf off (frameBytes seq channel etype ecat stype tag payload))
      (off + 8) 4 = channel % 4294967296 := by
  rw [frameBytes_decomp, writeBytes_append]
  rw [readLE_writeBytes_outside _ _ _ _ _ (Or.inr (by rw [qeBytes_length]; omega))]
  exact readLE_qeBytes_channel ..

theorem frame_read_etype (buf : ℕ → ℕ) (off seq channel etype ecat stype tag : ℕ)
    (payload : List ℕ) :
    readLE (writeBytes buf off (frameBytes seq channel etype ecat stype tag payload))
      (off + 12) 4 = etype % 4294967296 := by
  rw [frameBytes_decomp, writeBytes_append]
  rw [readLE_writeBytes_outside _ _ _ _ _ (Or.inr (by rw [qeBytes_length]))]
  exact readLE_qeBytes_etype ..

theorem frame_read_data (buf : ℕ → ℕ) (off seq channel etype ecat stype tag : ℕ)
    (payload : List ℕ) (hpay : ∀ b ∈ payload, b < 256) :
    readBytes (writeBytes buf off (frameBytes seq channel etype ecat stype tag payload))
      (off + QE_SIZE) (sendTotalEpic payload) =
      ehdrBytes seq ++ eshdrBytes payload.length ecat stype tag ++ payload := by
  have h := readBytes_writeBytes_slice buf off
    (qeBytes (sendTotalEpic payload) channel etype)
    (ehdrBytes seq ++ eshdrBytes payload.length ecat stype tag ++ payload) ([] : List ℕ)
  rw [← frameBytes_decomp] at h
  have hlen : (ehdrBytes seq ++ eshdrBytes payload.length ecat stype tag ++ payload).length =
      sendTotalEpic payload := by
    simp [ehdrBytes_length, eshdrBytes_length, sendTotalEpic, EHDR_SIZE, ESHDR_SIZE]
    omega
  rw [qeBytes_length, hlen] at h
  have hmap : (ehdrBytes seq ++ eshdrBytes payload.length ecat stype tag ++ payload).map
      (· % 256) = ehdrBytes seq ++ eshdrBytes payload.length ecat stype tag ++ payload := by
    apply map_mod_id
    intro b hb
    simp only [List.mem_append] at hb
    rcases hb with (hb | hb) | hb
    · exact ehdrBytes_mem_lt _ _ hb
    · exact eshdrBytes_mem_lt _ _ _ _ _ hb
    · exact hpay b hb
  rw [hmap] at h
  have hoff : off + QE_SIZE = off + 16 := rfl
  rw [hoff]
  exact h

/-! ### Claim C7 -/

/-- C7: for every ring state with read pointer strictly greater than write
pointer, an `afk_send_epic` call whose frame satisfies
`write + total size > read` fails with `-ENOMEM` and leaves the ring,
including the published write pointer, unchanged (the failure path stores
nothing). -/
theorem C7_insufficient_space (r : TxRing) (seq channel tag etype ecat stype : ℕ)
    (payload : List ℕ) (hrw : r.wptr < r.rptr) (hr32 : r.rptr < 4294967296)
    (hfull : r.rptr < r.wptr + (QE_SIZE + sendTotalEpic payload)) :
    (afk_send_epic r seq channel tag etype ecat stype payload).ret = -12 ∧
      (afk_send_epic r seq channel tag etype ecat stype payload).ring = r := by
  have e1 : r.rptr % 4294967296 = r.rptr := Nat.mod_eq_of_lt (by omega)
  have e2 : r.wptr % 4294967296 = r.wptr := Nat.mod_eq_of_lt (by omega)
  have hpl : afk_place r.bufsz (r.rptr % 4294967296) (r.wptr % 4294967296)
      (QE_SIZE + sendTotalEpic payload) (sendTotalEpic payload) = none := by
    rw [e1, e2]
    exact afk_place_lt_fail hrw hfull
  rw [afk_send_epic_none r seq channel tag etype ecat stype payload hpl]
  exact ⟨rfl, rfl⟩

/-- C7 witness: a concrete overfull ring rejects a frame. -/
theorem C7_insufficient_space_witness :
    (afk_send_epic ⟨128, 96, 64, fun _ => 0⟩ 0 1 2 3 4 5 []).ret = -12 ∧
      (afk_send_epic ⟨128, 96, 64, fun _ => 0⟩ 0 1 2 3 4 5 []).ring =
        ⟨128, 96, 64, fun _ => 0⟩ :=
  C7_insufficient_space ⟨128, 96, 64, fun _ => 0⟩ 0 1 2 3 4 5 []
    (by decide) (by decide) (by decide)

theorem afk_recv_wrap_stay (bufsz : ℕ) (buf : ℕ → ℕ) (rptr size : ℕ)
    (h : ¬bufsz < rptr + size + QE_SIZE) :
    afk_recv_wrap bufsz buf rptr size = some (rptr, size) := by
  unfold afk_recv_wrap
  rw [if_neg h]

theorem afk_recv_wrap_restart (bufsz : ℕ) (buf : ℕ → ℕ) (rptr size : ℕ)
    (h : bufsz < rptr + size + QE_SIZE)
    (hm : ¬(readLE buf 0 4 ≠ QE_MAGIC_IOP ∧ readLE buf 0 4 ≠ QE_MAGIC_AOP)) :
    afk_recv_wrap bufsz buf rptr size = some (0, readLE buf 4 4) := by
  unfold afk_recv_wrap
  rw [if_pos h, if_neg hm]

theorem afk_recv_decode_spec (bufsz : ℕ) (buf : ℕ → ℕ) (rptr rp sz : ℕ)
    (hm : ¬(readLE buf rptr 4 ≠ QE_MAGIC_IOP ∧ readLE buf rptr 4 ≠ QE_MAGIC_AOP))
    (hwrap : afk_recv_wrap bufsz buf rptr (readLE buf (rptr + 4) 4) = some (rp, sz))
    (hbound : ¬bufsz < rp + sz + QE_SIZE) :
    afk_recv_decode bufsz buf rptr =
      some (readLE buf (rp + 8) 4, readLE buf (rp + 12) 4,
        readBytes buf (rp + QE_SIZE) sz, recvNewRptr bufsz rp sz) := by
  unfold afk_recv_decode
  rw [if_neg hm, hwrap]
  dsimp only
  rw [if_neg hbound]

/-! ### Claim C3 -/

/-- C3: when the write pointer is at or past the read pointer and the full
frame does not fit before the end of the body, `afk_send_epic` places a
bare header-only entry at the write pointer — whose size field marks the
remaining capacity as insufficient (its declared span overflows the body,
which is exactly how the receive path detects the wrap) — plus a second
full entry at offset 0, provided the queue-entry header fits below the
read pointer and header+envelope fit below the read pointer; otherwise it
fails with `-ENOMEM`. -/
theorem C3_wraparound_dual_entry (r : TxRing) (seq channel tag etype ecat stype : ℕ)
    (payload : List ℕ)
    (hr : r.rptr < r.bufsz) (hw : r.wptr < r.bufsz) (hb : r.bufsz < 4294967296)
    (hge : r.rptr ≤ r.wptr)
    (hnofit : r.bufsz < r.wptr + (QE_SIZE + sendTotalEpic payload))
    (h64w : 64 ∣ r.wptr) (h64b : 64 ∣ r.bufsz)
    (hpay : ∀ b ∈ payload, b < 256) :
    ((QE_SIZE ≤ r.rptr ∧ QE_SIZE + sendTotalEpic payload ≤ r.rptr) →
      (afk_send_epic r seq channel tag etype ecat stype payload).ret = 0 ∧
      readLE (afk_send_epic r seq channel tag etype ecat stype payload).ring.buf
        r.wptr 4 = QE_MAGIC_IOP ∧
      readLE (afk_send_epic r seq channel tag etype ecat stype payload).ring.buf
        (r.wptr + 4) 4 = sendTotalEpic payload ∧
      r.bufsz < r.wptr + QE_SIZE +
        readLE (afk_send_epic r seq channel tag etype ecat stype payload).ring.buf
          (r.wptr + 4) 4 ∧
      readLE (afk_send_epic r seq channel tag etype ecat stype payload).ring.buf
        0 4 = QE_MAGIC_IOP ∧
      readLE (afk_send_epic r seq channel tag etype ecat stype payload).ring.buf
        4 4 = sendTotalEpic payload ∧
      readLE (afk_send_epic r seq channel tag etype ecat stype payload).ring.buf
        8 4 = channel % 4294967296 ∧
      readLE (afk_send_epic r seq channel tag etype ecat stype payload).ring.buf
        12 4 = etype % 4294967296 ∧
      readBytes (afk_send_epic r seq channel tag etype ecat stype payload).ring.buf
        QE_SIZE (sendTotalEpic payload) =
        ehdrBytes seq ++ eshdrBytes payload.length ecat stype tag ++ payload) ∧
    (¬(QE_SIZE ≤ r.rptr ∧ QE_SIZE + sendTotalEpic payload ≤ r.rptr) →
      (afk_send_epic r seq channel tag etype ecat stype payload).ret = -12) := by
  have e1 : r.rptr % 4294967296 = r.rptr := Nat.mod_eq_of_lt (by omega)
  have e2 : r.wptr % 4294967296 = r.wptr := Nat.mod_eq_of_lt (by omega)
  have hQE : QE_SIZE = 16 := rfl
  have htes : sendTotalEpic payload = 40 + payload.length := rfl
  have hhdr : ¬r.bufsz < r.wptr + QE_SIZE := by
    obtain ⟨a, ha⟩ := h64w
    obtain ⟨c, hc⟩ := h64b
    rw [hQE]
    omega
  have h1 : ¬r.wptr < r.rptr := by omega
  constructor
  · rintro ⟨hA, hB⟩
    rw [hQE] at hA
    rw [hQE, htes] at hB
    have h4 : ¬r.rptr < QE_SIZE := by rw [hQE]; omega
    have h5 : ¬r.rptr < QE_SIZE + sendTotalEpic payload := by rw [hQE, htes]; omega
    have hplm : afk_place r.bufsz (r.rptr % 4294967296) (r.wptr % 4294967296)
        (QE_SIZE + sendTotalEpic payload) (sendTotalEpic payload) = some (r.wptr, true) := by
      rw [e1, e2]
      exact afk_place_wrap h1 hhdr hnofit h4 h5
    rw [afk_send_epic_some_true r seq channel tag etype ecat stype payload _ hplm]
    have htlt : sendTotalEpic payload < 4294967296 := by rw [htes]; omega
    have hout4 : ∀ o : ℕ, r.wptr ≤ o →
        readLE (writeBytes
            (writeBytes r.buf r.wptr (qeBytes (sendTotalEpic payload) channel etype)) 0
            (frameBytes seq channel etype ecat stype tag payload)) o 4 =
          readLE (writeBytes r.buf r.wptr (qeBytes (sendTotalEpic payload) channel etype))
            o 4 := by
      intro o ho
      exact readLE_writeBytes_outside _ _ _ _ _
        (Or.inl (by rw [frameBytes_length]; omega))
    have hsent_sz : readLE (writeBytes
        (writeBytes r.buf r.wptr (qeBytes (sendTotalEpic payload) channel etype)) 0
        (frameBytes seq channel etype ecat stype tag payload)) (r.wptr + 4) 4 =
        sendTotalEpic payload := by
      rw [hout4 (r.wptr + 4) (by omega), readLE_qeBytes_size]
      exact Nat.mod_eq_of_lt htlt
    refine ⟨rfl, ?_, ?_, ?_, ?_, ?_, ?_, ?_, ?_⟩
    · rw [hout4 r.wptr (by omega)]
      exact readLE_qeBytes_magic ..
    · exact hsent_sz
    · rw [hsent_sz, hQE]
      rw [hQE, htes] at hnofit
      rw [htes]
      omega
    · have h := frame_read_magic
        (writeBytes r.buf r.wptr (qeBytes (sendTotalEpic payload) channel etype)) 0
        seq channel etype ecat stype tag payload
      exact h
    · have h := frame_read_size
        (writeBytes r.buf r.wptr (qeBytes (sendTotalEpic payload) channel etype)) 0
        seq channel etype ecat stype tag payload
      rw [Nat.zero_add] at h
      rw [h]
      exact Nat.mod_eq_of_lt htlt
    · have h := frame_read_channel
        (writeBytes r.buf r.wptr (qeBytes (sendTotalEpic payload) channel etype)) 0
        seq channel etype ecat stype tag payload
      rw [Nat.zero_add] at h
      exact h
    · have h := frame_read_etype
        (writeBytes r.buf r.wptr (qeBytes (sendTotalEpic payload) channel etype)) 0
        seq channel etype ecat stype tag payload
      rw [Nat.zero_add] at h
      exact h
    · have h := frame_read_data
        (writeBytes r.buf r.wptr (qeBytes (sendTotalEpic payload) channel etype)) 0
        seq channel etype ecat stype tag payload hpay
      rw [Nat.zero_add] at h
      exact h
  · intro hnot
    by_cases h4 : r.rptr < QE_SIZE
    · have hplm : afk_place r.bufsz (r.rptr % 4294967296) (r.wptr % 4294967296)
          (QE_SIZE + sendTotalEpic payload) (sendTotalEpic payload) = none := by
        rw [e1, e2]
        exact afk_place_wrap_fail1 h1 hhdr hnofit h4
      rw [afk_send_epic_none r seq channel tag etype ecat stype payload hplm]
    · have h5 : r.rptr < QE_SIZE + sendTotalEpic payload := by
        by_contra hc
        exact hnot ⟨by omega, by omega⟩
      have hplm : afk_place r.bufsz (r.rptr % 4294967296) (r.wptr % 4294967296)
          (QE_SIZE + sendTotalEpic payload) (sendTotalEpic payload) = none := by
        rw [e1, e2]
        exact afk_place_wrap_fail2 h1 hhdr hnofit h4 h5
      rw [afk_send_epic_none r seq channel tag etype ecat stype payload hplm]

/-- C3 witness: a concrete wraparound send succeeds and the sentinel entry
at the old write pointer carries the IOP magic. -/
theorem C3_wraparound_dual_entry_witness :
    (afk_send_epic ⟨192, 128, 128, fun _ => 0⟩ 0 1 2 3 4 5
      (List.replicate 72 0)).ret = 0 ∧
    readLE (afk_send_epic ⟨192, 128, 128, fun _ => 0⟩ 0 1 2 3 4 5
      (List.replicate 72 0)).ring.buf 128 4 = QE_MAGIC_IOP := by
  have h := (C3_wraparound_dual_entry ⟨192, 128, 128, fun _ => 0⟩ 0 1 2 3 4 5
    (List.replicate 72 0) (by decide) (by decide) (by decide) (by decide) (by decide)
    (by decide) (by decide) (by decide)).1 ⟨by decide, by decide⟩
  exact ⟨h.1, h.2.1⟩

/-! ### Claim C8 -/

/-- C8: for every channel, type and payload that fit in the ring (the send
succeeds), encoding a queue entry with `afk_send_epic` and then decoding
it from the same offset with the receive path reproduces the original
channel, type and payload bytes: the decoded data is the envelope headers
followed by the payload, and dropping the two 40-byte headers recovers the
payload exactly. -/
theorem C8_roundtrip (r : TxRing) (seq channel tag etype ecat stype : ℕ)
    (payload : List ℕ)
    (hr : r.rptr < r.bufsz) (hw : r.wptr < r.bufsz) (hb : r.bufsz < 4294967296)
    (hch : channel < 4294967296) (hty : etype < 4294967296)
    (hpay : ∀ b ∈ payload, b < 256)
    (hret : (afk_send_epic r seq channel tag etype ecat stype payload).ret = 0) :
    (∃ nr, afk_recv_decode r.bufsz
        (afk_send_epic r seq channel tag etype ecat stype payload).ring.buf r.wptr =
      some (channel, etype,
        ehdrBytes seq ++ eshdrBytes payload.length ecat stype tag ++ payload, nr)) ∧
    (ehdrBytes seq ++ eshdrBytes payload.length ecat stype tag ++ payload).drop 40 =
      payload := by
  have e1 : r.rptr % 4294967296 = r.rptr := Nat.mod_eq_of_lt (by omega)
  have e2 : r.wptr % 4294967296 = r.wptr := Nat.mod_eq_of_lt (by omega)
  have hQE : QE_SIZE = 16 := rfl
  have htes : sendTotalEpic payload = 40 + payload.length := rfl
  constructor
  · by_cases h1 : r.wptr < r.rptr
    · by_cases h2 : r.rptr < r.wptr + (QE_SIZE + sendTotalEpic payload)
      · exfalso
        have hpl : afk_place r.bufsz (r.rptr % 4294967296) (r.wptr % 4294967296)
            (QE_SIZE + sendTotalEpic payload) (sendTotalEpic payload) = none := by
          rw [e1, e2]
          exact afk_place_lt_fail h1 h2
        rw [afk_send_epic_none r seq channel tag etype ecat stype payload hpl] at hret
        simp at hret
      · have hn2 : r.wptr + (16 + (40 + payload.length)) ≤ r.rptr := by
          rw [hQE, htes] at h2
          omega
        have hplm : afk_place r.bufsz (r.rptr % 4294967296) (r.wptr % 4294967296)
            (QE_SIZE + sendTotalEpic payload) (sendTotalEpic payload) =
              some (r.wptr, false) := by
          rw [e1, e2]
          exact afk_place_lt_fits h1 h2
        rw [afk_send_epic_some_false r seq channel tag etype ecat stype payload _ hplm]
        refine ⟨recvNewRptr r.bufsz r.wptr (sendTotalEpic payload), ?_⟩
        have htlt : sendTotalEpic payload < 4294967296 := by rw [htes]; omega
        have hmag : readLE (writeBytes r.buf r.wptr
            (frameBytes seq channel etype ecat stype tag payload)) r.wptr 4 =
            QE_MAGIC_IOP := frame_read_magic ..
        have hsz : readLE (writeBytes r.buf r.wptr
            (frameBytes seq channel etype ecat stype tag payload)) (r.wptr + 4) 4 =
            sendTotalEpic payload := by
          rw [frame_read_size]
          exact Nat.mod_eq_of_lt htlt
        have hm : ¬(readLE (writeBytes r.buf r.wptr
            (frameBytes seq channel etype ecat stype tag payload)) r.wptr 4 ≠
              QE_MAGIC_IOP ∧
            readLE (writeBytes r.buf r.wptr
            (frameBytes seq channel etype ecat stype tag payload)) r.wptr 4 ≠
              QE_MAGIC_AOP) := by
          rw [hmag]
          simp
        have hbound : ¬r.bufsz < r.wptr + sendTotalEpic payload + QE_SIZE := by
          rw [hQE, htes]
          omega
        have hwrap : afk_recv_wrap r.bufsz (writeBytes r.buf r.wptr
            (frameBytes seq channel etype ecat stype tag payload)) r.wptr
            (readLE (writeBytes r.buf r.wptr
              (frameBytes seq channel etype ecat stype tag payload)) (r.wptr + 4) 4) =
            some (r.wptr, sendTotalEpic payload) := by
          rw [hsz]
          exact afk_recv_wrap_stay _ _ _ _ hbound
        rw [afk_recv_decode_spec r.bufsz _ r.wptr r.wptr (sendTotalEpic payload)
          hm hwrap hbound]
        rw [frame_read_channel, frame_read_etype, Nat.mod_eq_of_lt hch,
          Nat.mod_eq_of_lt hty,
          frame_read_data r.buf r.wptr seq channel etype ecat stype tag payload hpay]
    · by_cases h2 : r.bufsz < r.wptr + QE_SIZE
      · exfalso
        have hpl : afk_place r.bufsz (r.rptr % 4294967296) (r.wptr % 4294967296)
            (QE_SIZE + sendTotalEpic payload) (sendTotalEpic payload) = none := by
          rw [e1, e2]
          exact afk_place_hdr_fail h1 h2
        rw [afk_send_epic_none r seq channel tag etype ecat stype payload hpl] at hret
        simp at hret
      · by_cases h3 : r.bufsz < r.wptr + (QE_SIZE + sendTotalEpic payload)
        · by_cases h4 : r.rptr < QE_SIZE
          · exfalso
            have hpl : afk_place r.bufsz (r.rptr % 4294967296) (r.wptr % 4294967296)
                (QE_SIZE + sendTotalEpic payload) (sendTotalEpic payload) = none := by
              rw [e1, e2]
              exact afk_place_wrap_fail1 h1 h2 h3 h4
            rw [afk_send_epic_none r seq channel tag etype ecat stype payload hpl] at hret
            simp at hret
          · by_cases h5 : r.rptr < QE_SIZE + sendTotalEpic payload
            · exfalso
              have hpl : afk_place r.bufsz (r.rptr % 4294967296) (r.wptr % 4294967296)
                  (QE_SIZE + sendTotalEpic payload) (sendTotalEpic payload) = none := by
                rw [e1, e2]
                exact afk_place_wrap_fail2 h1 h2 h3 h4 h5
              rw [afk_send_epic_none r seq channel tag etype ecat stype payload hpl] at hret
              simp at hret
            · have hn3 : r.bufsz < r.wptr + (16 + (40 + payload.length)) := by
                rw [hQE, htes] at h3
                omega
              have hn5 : 16 + (40 + payload.length) ≤ r.rptr := by
                rw [hQE, htes] at h5
                omega
              have hplm : afk_place r.bufsz (r.rptr % 4294967296) (r.wptr % 4294967296)
                  (QE_SIZE + sendTotalEpic payload) (sendTotalEpic payload) =
                    some (r.wptr, true) := by
                rw [e1, e2]
                exact afk_place_wrap h1 h2 h3 h4 h5
              rw [afk_send_epic_some_true r seq channel tag etype ecat stype payload _ hplm]
              refine ⟨recvNewRptr r.bufsz 0 (sendTotalEpic payload), ?_⟩
              have htlt : sendTotalEpic payload < 4294967296 := by rw [htes]; omega
              have hmag : readLE (writeBytes (writeBytes r.buf r.wptr
                  (qeBytes (sendTotalEpic payload) channel etype)) 0
                  (frameBytes seq channel etype ecat stype tag payload)) r.wptr 4 =
                  QE_MAGIC_IOP := by
                rw [readLE_writeBytes_outside _ _ _ _ _
                  (Or.inl (by rw [frameBytes_length]; omega))]
                exact readLE_qeBytes_magic ..
              have hsz : readLE (writeBytes (writeBytes r.buf r.wptr
                  (qeBytes (sendTotalEpic payload) channel etype)) 0
                  (frameBytes seq channel etype ecat stype tag payload)) (r.wptr + 4) 4 =
                  sendTotalEpic payload := by
                rw [readLE_writeBytes_outside _ _ _ _ _
                  (Or.inl (by rw [frameBytes_length]; omega))]
                rw [readLE_qeBytes_size]
                exact Nat.mod_eq_of_lt htlt
              have hsz0 : readLE (writeBytes (writeBytes r.buf r.wptr
                  (qeBytes (sendTotalEpic payload) channel etype)) 0
                  (frameBytes seq channel etype ecat stype tag payload)) 4 4 =
                  sendTotalEpic payload := by
                have h := frame_read_size (writeBytes r.buf r.wptr
                  (qeBytes (sendTotalEpic payload) channel etype)) 0
                  seq channel etype ecat stype tag payload
                rw [Nat.zero_add] at h
                rw [h]
                exact Nat.mod_eq_of_lt htlt
              have hm : ¬(readLE (writeBytes (writeBytes r.buf r.wptr
                  (qeBytes (sendTotalEpic payload) channel etype)) 0
                  (frameBytes seq channel etype ecat stype tag payload)) r.wptr 4 ≠
                    QE_MAGIC_IOP ∧
                  readLE (writeBytes (writeBytes r.buf r.wptr
                  (qeBytes (sendTotalEpic payload) channel etype)) 0
                  (frameBytes seq channel etype ecat stype tag payload)) r.wptr 4 ≠
                    QE_MAGIC_AOP) := by
                rw [hmag]
                simp
              have hm0 : ¬(readLE (writeBytes (writeBytes r.buf r.wptr
                  (qeBytes (sendTotalEpic payload) channel etype)) 0
                  (frameBytes seq channel etype ecat stype tag payload)) 0 4 ≠
                    QE_MAGIC_IOP ∧
                  readLE (writeBytes (writeBytes r.buf r.wptr
                  (qeBytes (sendTotalEpic payload) channel etype)) 0
                  (frameBytes seq channel etype ecat stype tag payload)) 0 4 ≠
                    QE_MAGIC_AOP) := by
                rw [frame_read_magic]
                simp
              have hcond : r.bufsz < r.wptr + sendTotalEpic payload + QE_SIZE := by
                rw [hQE, htes]
                omega
              have hwrap : afk_recv_wrap r.bufsz (writeBytes (writeBytes r.buf r.wptr
                  (qeBytes (sendTotalEpic payload) channel etype)) 0
                  (frameBytes seq channel etype ecat stype tag payload)) r.wptr
                  (readLE (writeBytes (writeBytes r.buf r.wptr
                    (qeBytes (sendTotalEpic payload) channel etype)) 0
                    (frameBytes seq channel etype ecat stype tag payload))
                    (r.wptr + 4) 4) =
                  some (0, sendTotalEpic payload) := by
                rw [hsz]
                rw [afk_recv_wrap_restart _ _ _ _ hcond hm0]
                rw [hsz0]
              have hbound : ¬r.bufsz < 0 + sendTotalEpic payload + QE_SIZE := by
                rw [hQE, htes]
                omega
              rw [afk_recv_decode_spec r.bufsz _ r.wptr 0 (sendTotalEpic payload)
                hm hwrap hbound]
              rw [frame_read_channel, frame_read_etype, Nat.mod_eq_of_lt hch,
                Nat.mod_eq_of_lt hty,
                frame_read_data (writeBytes r.buf r.wptr
                  (qeBytes (sendTotalEpic payload) channel etype)) 0
                  seq channel etype ecat stype tag payload hpay]
        · have hn3 : r.wptr + (16 + (40 + payload.length)) ≤ r.bufsz := by
            rw [hQE, htes] at h3
            omega
          have hplm : afk_place r.bufsz (r.rptr % 4294967296) (r.wptr % 4294967296)
              (QE_SIZE + sendTotalEpic payload) (sendTotalEpic payload) =
                some (r.wptr, false) := by
            rw [e1, e2]
            exact afk_place_ge_fits h1 h2 h3
          rw [afk_send_epic_some_false r seq channel tag etype ecat stype payload _ hplm]
          refine ⟨recvNewRptr r.bufsz r.wptr (sendTotalEpic payload), ?_⟩
          have htlt : sendTotalEpic payload < 4294967296 := by rw [htes]; omega
          have hmag : readLE (writeBytes r.buf r.wptr
              (frameBytes seq channel etype ecat stype tag payload)) r.wptr 4 =
              QE_MAGIC_IOP := frame_read_magic ..
          have hsz : readLE (writeBytes r.buf r.wptr
              (frameBytes seq channel etype ecat stype tag payload)) (r.wptr + 4) 4 =
              sendTotalEpic payload := by
            rw [frame_read_size]
            exact Nat.mod_eq_of_lt htlt
          have hm : ¬(readLE (writeBytes r.buf r.wptr
              (frameBytes seq channel etype ecat stype tag payload)) r.wptr 4 ≠
                QE_MAGIC_IOP ∧
              readLE (writeBytes r.buf r.wptr
              (frameBytes seq channel etype ecat stype tag payload)) r.wptr 4 ≠
                QE_MAGIC_AOP) := by
            rw [hmag]
            simp
          have hbound : ¬r.bufsz < r.wptr + sendTotalEpic payload + QE_SIZE := by
            rw [hQE, htes]
            omega
          have hwrap : afk_recv_wrap r.bufsz (writeBytes r.buf r.wptr
              (frameBytes seq channel etype ecat stype tag payload)) r.wptr
              (readLE (writeBytes r.buf r.wptr
                (frameBytes seq channel etype ecat stype tag payload)) (r.wptr + 4) 4) =
              some (r.wptr, sendTotalEpic payload) := by
            rw [hsz]
            exact afk_recv_wrap_stay _ _ _ _ hbound
          rw [afk_recv_decode_spec r.bufsz _ r.wptr r.wptr (sendTotalEpic payload)
            hm hwrap hbound]
          rw [frame_read_channel, frame_read_etype, Nat.mod_eq_of_lt hch,
            Nat.mod_eq_of_lt hty,
            frame_read_data r.buf r.wptr seq channel etype ecat stype tag payload hpay]
  · have hlen : (ehdrBytes seq ++ eshdrBytes payload.length ecat stype tag).length = 40 := by
      rw [List.length_append, ehdrBytes_length, eshdrBytes_length]
    rw [← hlen, List.drop_left]

/-- C8 witness: a concrete encode/decode round trip reproduces channel 7,
type 4 and the payload. -/
theorem C8_roundtrip_witness :
    (∃ nr, afk_recv_decode 128
        (afk_send_epic ⟨128, 0, 0, fun _ => 0⟩ 9 7 11 4 0 2 [1, 2, 3]).ring.buf 0 =
      some (7, 4, ehdrBytes 9 ++ eshdrBytes 3 0 2 11 ++ [1, 2, 3], nr)) ∧
    (ehdrBytes 9 ++ eshdrBytes 3 0 2 11 ++ [1, 2, 3]).drop 40 = [1, 2, 3] :=
  C8_roundtrip ⟨128, 0, 0, fun _ => 0⟩ 9 7 11 4 0 2 [1, 2, 3]
    (by decide) (by decide) (by decide) (by decide) (by decide) (by decide) (by decide)

/-! ### Claim C1 -/

/-- C1: for every valid ring state with the total frame size at most the
body size, a successful `afk_send_epic` writes only inside a region that
lies entirely within `[0, bufsz)` and is disjoint from the
reserved-for-peer region `[rptr, wptr)` (in ring order); every byte
outside that region is untouched. -/
theorem C1_send_placement (r : TxRing) (seq channel tag etype ecat stype : ℕ)
    (payload : List ℕ)
    (hr : r.rptr < r.bufsz) (hw : r.wptr < r.bufsz) (hb : r.bufsz < 4294967296)
    (htot : QE_SIZE + sendTotalEpic payload ≤ r.bufsz)
    (hret : (afk_send_epic r seq channel tag etype ecat stype payload).ret = 0) (i : ℕ) :
    (inSendRegion r.bufsz r.rptr r.wptr (sendTotalEpic payload) i = true →
      i < r.bufsz ∧ isReserved r.rptr r.wptr r.bufsz i = false) ∧
    (inSendRegion r.bufsz r.rptr r.wptr (sendTotalEpic payload) i = false →
      (afk_send_epic r seq channel tag etype ecat stype payload).ring.buf i = r.buf i) := by
  have e1 : r.rptr % 4294967296 = r.rptr := Nat.mod_eq_of_lt (by omega)
  have e2 : r.wptr % 4294967296 = r.wptr := Nat.mod_eq_of_lt (by omega)
  have hfl : (frameBytes seq channel etype ecat stype tag payload).length =
      56 + payload.length := frameBytes_length ..
  have htes : sendTotalEpic payload = 40 + payload.length := rfl
  have hQE : QE_SIZE = 16 := rfl
  rw [hQE, htes] at htot
  by_cases h1 : r.wptr < r.rptr
  · by_cases h2 : r.rptr < r.wptr + (QE_SIZE + sendTotalEpic payload)
    · exfalso
      have hpl : afk_place r.bufsz (r.rptr % 4294967296) (r.wptr % 4294967296)
          (QE_SIZE + sendTotalEpic payload) (sendTotalEpic payload) = none := by
        rw [e1, e2]
        exact afk_place_lt_fail h1 h2
      rw [afk_send_epic_none r seq channel tag etype ecat stype payload hpl] at hret
      simp at hret
    · have hplu : afk_place r.bufsz r.rptr r.wptr
          (QE_SIZE + sendTotalEpic payload) (sendTotalEpic payload) = some (r.wptr, false) :=
        afk_place_lt_fits h1 h2
      have hplm : afk_place r.bufsz (r.rptr % 4294967296) (r.wptr % 4294967296)
          (QE_SIZE + sendTotalEpic payload) (sendTotalEpic payload) = some (r.wptr, false) := by
        rw [e1, e2]
        exact hplu
      rw [afk_send_epic_some_false r seq channel tag etype ecat stype payload _ hplm]
      unfold inSendRegion
      rw [hplu, regionOfPlace_some_false]
      simp only [hQE, htes] at h2
      constructor
      · intro hin
        rw [iteb_true_iff] at hin
        simp only [hQE, htes] at hin
        refine ⟨by omega, ?_⟩
        unfold isReserved
        rw [if_neg (by omega), iteb_false_iff]
        omega
      · intro hout
        rw [iteb_false_iff] at hout
        simp only [hQE, htes] at hout
        push_neg at hout
        show writeBytes r.buf r.wptr (frameBytes seq channel etype ecat stype tag payload) i =
          r.buf i
        apply writeBytes_outside
        rw [hfl]
        rcases Nat.lt_or_ge i r.wptr with h | h
        · exact Or.inl h
        · exact Or.inr (by have := hout h; omega)
  · by_cases h2 : r.bufsz < r.wptr + QE_SIZE
    · exfalso
      have hpl : afk_place r.bufsz (r.rptr % 4294967296) (r.wptr % 4294967296)
          (QE_SIZE + sendTotalEpic payload) (sendTotalEpic payload) = none := by
        rw [e1, e2]
        exact afk_place_hdr_fail h1 h2
      rw [afk_send_epic_none r seq channel tag etype ecat stype payload hpl] at hret
      simp at hret
    · by_cases h3 : r.bufsz < r.wptr + (QE_SIZE + sendTotalEpic payload)
      · by_cases h4 : r.rptr < QE_SIZE
        · exfalso
          have hpl : afk_place r.bufsz (r.rptr % 4294967296) (r.wptr % 4294967296)
              (QE_SIZE + sendTotalEpic payload) (sendTotalEpic payload) = none := by
            rw [e1, e2]
            exact afk_place_wrap_fail1 h1 h2 h3 h4
          rw [afk_send_epic_none r seq channel tag etype ecat stype payload hpl] at hret
          simp at hret
        · by_cases h5 : r.rptr < QE_SIZE + sendTotalEpic payload
          · exfalso
            have hpl : afk_place r.bufsz (r.rptr % 4294967296) (r.wptr % 4294967296)
                (QE_SIZE + sendTotalEpic payload) (sendTotalEpic payload) = none := by
              rw [e1, e2]
              exact afk_place_wrap_fail2 h1 h2 h3 h4 h5
            rw [afk_send_epic_none r seq channel tag etype ecat stype payload hpl] at hret
            simp at hret
          · have hplu : afk_place r.bufsz r.rptr r.wptr
                (QE_SIZE + sendTotalEpic payload) (sendTotalEpic payload) =
                  some (r.wptr, true) := afk_place_wrap h1 h2 h3 h4 h5
            have hplm : afk_place r.bufsz (r.rptr % 4294967296) (r.wptr % 4294967296)
                (QE_SIZE + sendTotalEpic payload) (sendTotalEpic payload) =
                  some (r.wptr, true) := by
              rw [e1, e2]
              exact hplu
            rw [afk_send_epic_some_true r seq channel tag etype ecat stype payload _ hplm]
            unfold inSendRegion
            rw [hplu, regionOfPlace_some_true]
            simp only [hQE, htes] at h2 h3 h4 h5
            constructor
            · intro hin
              rw [iteb_true_iff] at hin
              simp only [hQE, htes] at hin
              constructor
              · rcases hin with h | h
                · omega
                · omega
              · unfold isReserved
                rw [if_pos (by omega), iteb_false_iff]
                rcases hin with h | h
                · omega
                · omega
            · intro hout
              rw [iteb_false_iff] at hout
              simp only [hQE, htes] at hout
              push_neg at hout
              obtain ⟨ha, hbnd⟩ := hout
              show writeBytes
                  (writeBytes r.buf r.wptr (qeBytes (sendTotalEpic payload) channel etype)) 0
                  (frameBytes seq channel etype ecat stype tag payload) i = r.buf i
              rw [writeBytes_outside _ _ _ _ (Or.inr (by rw [hfl]; omega))]
              apply writeBytes_outside
              rw [qeBytes_length]
              rcases Nat.lt_or_ge i r.wptr with h | h
              · exact Or.inl h
              · exact Or.inr (by have := ha h; omega)
      · have hplu : afk_place r.bufsz r.rptr r.wptr
            (QE_SIZE + sendTotalEpic payload) (sendTotalEpic payload) =
              some (r.wptr, false) := afk_place_ge_fits h1 h2 h3
        have hplm : afk_place r.bufsz (r.rptr % 4294967296) (r.wptr % 4294967296)
            (QE_SIZE + sendTotalEpic payload) (sendTotalEpic payload) =
              some (r.wptr, false) := by
          rw [e1, e2]
          exact hplu
        rw [afk_send_epic_some_false r seq channel tag etype ecat stype payload _ hplm]
        unfold inSendRegion
        rw [hplu, regionOfPlace_some_false]
        simp only [hQE, htes] at h2 h3
        constructor
        · intro hin
          rw [iteb_true_iff] at hin
          simp only [hQE, htes] at hin
          refine ⟨by omega, ?_⟩
          unfold isReserved
          rw [if_pos (by omega), iteb_false_iff]
          omega
        · intro hout
          rw [iteb_false_iff] at hout
          simp only [hQE, htes] at hout
          push_neg at hout
          show writeBytes r.buf r.wptr (frameBytes seq channel etype ecat stype tag payload) i =
            r.buf i
          apply writeBytes_outside
          rw [hfl]
          rcases Nat.lt_or_ge i r.wptr with h | h
          · exact Or.inl h
          · exact Or.inr (by have := hout h; omega)

/-- C1 witness: a concrete successful send writes byte 0 (inside the
region, inside bounds, outside the reserved region). -/
theorem C1_send_placement_witness :
    (inSendRegion 128 0 0 (sendTotalEpic ([] : List ℕ)) 0 = true →
      0 < 128 ∧ isReserved 0 0 128 0 = false) ∧
    (inSendRegion 128 0 0 (sendTotalEpic ([] : List ℕ)) 0 = false →
      (afk_send_epic ⟨128, 0, 0, fun _ => 7⟩ 0 1 2 3 4 5 []).ring.buf 0 =
        (⟨128, 0, 0, fun _ => 7⟩ : TxRing).buf 0) :=
  C1_send_placement ⟨128, 0, 0, fun _ => 7⟩ 0 1 2 3 4 5 []
    (by decide) (by decide) (by decide) (by decide) (by decide) 0


theorem toLEBytes_two (v : ℕ) : toLEBytes 2 v = [v % 256, v / 256 % 256] := rfl

theorem toLEBytes_four (v : ℕ) : toLEBytes 4 v =
    [v % 256, v / 256 % 256, v / 256 / 256 % 256, v / 256 / 256 / 256 % 256] := rfl

theorem toLEBytes_eight (v : ℕ) : toLEBytes 8 v =
    [v % 256, v / 256 % 256, v / 256 / 256 % 256, v / 256 / 256 / 256 % 256,
     v / 256 / 256 / 256 / 256 % 256, v / 256 / 256 / 256 / 256 / 256 % 256,
     v / 256 / 256 / 256 / 256 / 256 / 256 % 256,
     v / 256 / 256 / 256 / 256 / 256 / 256 / 256 % 256] := rfl

theorem replicate_five : List.replicate 5 0 = [0, 0, 0, 0, 0] := rfl

/-! ### Claim C5 -/

/-- C5: `afk_recv_handle_reply` drops (without modifying the pending
command state or producing any effect) any reply whose tag index is out of
range, whose slot is already done, or whose tag does not match the stored
tag; in particular a rejected reply leaves the pending command's `done`
flag and every other field unchanged. -/
theorem C5_reply_reject_unchanged (s : SvcState) (tag : ℕ) (payload : List ℕ)
    (h : MAX_PENDING_CMDS ≤ tag % 256 ∨ (s.cmds (tag % 256)).done = true ∨
      tag ≠ (s.cmds (tag % 256)).tag) :
    afk_recv_handle_reply s tag payload = (s, noReplyEffects) := by
  unfold afk_recv_handle_reply
  by_cases hp : payload.length < EPIC_CMD_SIZE
  · rw [if_pos hp]
  · rw [if_neg hp]
    by_cases h1 : MAX_PENDING_CMDS ≤ tag % 256
    · rw [if_pos h1]
    · rw [if_neg h1]
      by_cases h2 : (s.cmds (tag % 256)).done = true
      · rw [if_pos h2]
      · rw [if_neg h2]
        have h3 : tag ≠ (s.cmds (tag % 256)).tag := by
          rcases h with h | h | h
          · exact absurd h h1
          · exact absurd h h2
          · exact h
        rw [if_pos h3]

/-- C5 witness: a reply whose tag index (188) is out of range is dropped
and the service state is untouched. -/
theorem C5_reply_reject_unchanged_witness :
    afk_recv_handle_reply
      ⟨fun _ => ⟨3, false, false, 0, true, true, true, 4, 4⟩, fun _ => true⟩ 700
      (List.replicate 28 0) =
    (⟨fun _ => ⟨3, false, false, 0, true, true, true, 4, 4⟩, fun _ => true⟩,
      noReplyEffects) :=
  C5_reply_reject_unchanged
    ⟨fun _ => ⟨3, false, false, 0, true, true, true, 4, 4⟩, fun _ => true⟩ 700
    (List.replicate 28 0) (Or.inl (by decide))

/-! ### Claim C2 -/

/-- C2: the timeout race in `afk_send_command`.  If the reply lands between
the timeout firing and the lock-protected recheck (interleaving A), the
caller observes success (0, not `-ETIMEDOUT`) and the waiter alone frees
the DMA buffers and releases the tag slot (the reply handler, seeing
`free_on_ack` unset, frees nothing).  If the command is genuinely still
pending at the recheck (interleaving B), the completion pointer is
cleared, `free_on_ack` is set and `-ETIMEDOUT` is returned with no frees
by the waiter; the later reply is then accepted and frees the buffers and
slot exactly once via the deferred path. -/
theorem C2_timeout_race (s0 : SvcState) (t : ℕ) (payload : List ℕ)
    (hidx : t % 256 < MAX_PENDING_CMDS)
    (hdone : (s0.cmds (t % 256)).done = false)
    (hfoa : (s0.cmds (t % 256)).free_on_ack = false)
    (htag : (s0.cmds (t % 256)).tag = t)
    (hrxb : (s0.cmds (t % 256)).rxbufSet = true)
    (htxb : (s0.cmds (t % 256)).txbufSet = true)
    (hrxl : (s0.cmds (t % 256)).rxlen ≠ 0)
    (htxl : (s0.cmds (t % 256)).txlen ≠ 0)
    (hpl : ¬payload.length < EPIC_CMD_SIZE) :
    ((afk_send_command_timeout_recheck
        (afk_recv_handle_reply s0 t payload).1 (t % 256)).1 = 0 ∧
     (afk_recv_handle_reply s0 t payload).2.freedRx = false ∧
     (afk_recv_handle_reply s0 t payload).2.freedTx = false ∧
     (afk_recv_handle_reply s0 t payload).2.releasedSlot = false ∧
     (afk_send_command_timeout_recheck
        (afk_recv_handle_reply s0 t payload).1 (t % 256)).2.2 =
       ⟨true, true, true, true⟩) ∧
    ((afk_send_command_timeout_recheck s0 (t % 256)).1 = -110 ∧
     ((afk_send_command_timeout_recheck s0 (t % 256)).2.1.cmds
        (t % 256)).free_on_ack = true ∧
     ((afk_send_command_timeout_recheck s0 (t % 256)).2.1.cmds
        (t % 256)).completionAttached = false ∧
     (afk_send_command_timeout_recheck s0 (t % 256)).2.2 = noWaiterEffects ∧
     (afk_recv_handle_reply
        (afk_send_command_timeout_recheck s0 (t % 256)).2.1 t payload).2.accepted = true ∧
     (afk_recv_handle_reply
        (afk_send_command_timeout_recheck s0 (t % 256)).2.1 t payload).2.freedRx = true ∧
     (afk_recv_handle_reply
        (afk_send_command_timeout_recheck s0 (t % 256)).2.1 t payload).2.freedTx = true ∧
     (afk_recv_handle_reply
        (afk_send_command_timeout_recheck s0 (t % 256)).2.1 t payload).2.releasedSlot =
       true) := by
  have hidxne : ¬MAX_PENDING_CMDS ≤ t % 256 := by omega
  have hdone' : ¬(s0.cmds (t % 256)).done = true := by simp [hdone]
  have htagne : ¬t ≠ (s0.cmds (t % 256)).tag := by simp [htag]
  constructor
  · have hreply : afk_recv_handle_reply s0 t payload =
        (⟨fun j => if j = t % 256 then
            { s0.cmds (t % 256) with done := true, retcode := listLE32 payload }
          else s0.cmds j, s0.cmdMap⟩,
         ⟨true, false, false, false, (s0.cmds (t % 256)).completionAttached⟩) := by
      unfold afk_recv_handle_reply
      rw [if_neg hpl, if_neg hidxne, if_neg hdone', if_neg htagne, hfoa]
      simp
    rw [hreply]
    unfold afk_send_command_timeout_recheck
    rw [if_neg (by simp)]
    exact ⟨rfl, rfl, rfl, rfl, rfl⟩
  · have hrecheck : afk_send_command_timeout_recheck s0 (t % 256) =
        (-110,
         ⟨fun j => if j = t % 256 then
             { s0.cmds (t % 256) with completionAttached := false, free_on_ack := true }
           else s0.cmds j, s0.cmdMap⟩,
         noWaiterEffects) := by
      unfold afk_send_command_timeout_recheck
      rw [if_pos hdone]
    rw [hrecheck]
    refine ⟨rfl, by simp, by simp, rfl, ?_, ?_, ?_, ?_⟩
    · unfold afk_recv_handle_reply
      rw [if_neg hpl, if_neg hidxne, if_neg (by simp [hdone]), if_neg (by simp [htag])]
    · unfold afk_recv_handle_reply
      rw [if_neg hpl, if_neg hidxne, if_neg (by simp [hdone]), if_neg (by simp [htag])]
      simp [hrxb, hrxl]
    · unfold afk_recv_handle_reply
      rw [if_neg hpl, if_neg hidxne, if_neg (by simp [hdone]), if_neg (by simp [htag])]
      simp [htxb, htxl]
    · unfold afk_recv_handle_reply
      rw [if_neg hpl, if_neg hidxne, if_neg (by simp [hdone]), if_neg (by simp [htag])]
      simp

/-- C2 witness: the race resolved at a concrete pending-command state. -/
theorem C2_timeout_race_witness :
    (afk_send_command_timeout_recheck
      (afk_recv_handle_reply
        ⟨fun _ => ⟨5, false, false, 0, true, true, true, 4, 4⟩, fun _ => true⟩ 5
        (List.replicate 28 0)).1 5).1 = 0 ∧
    (afk_send_command_timeout_recheck
      ⟨fun _ => ⟨5, false, false, 0, true, true, true, 4, 4⟩, fun _ => true⟩ 5).1 = -110 := by
  have h := C2_timeout_race
    ⟨fun _ => ⟨5, false, false, 0, true, true, true, 4, 4⟩, fun _ => true⟩ 5
    (List.replicate 28 0) (by decide) (by decide) (by decide) (by decide) (by decide)
    (by decide) (by decide) (by decide) (by decide)
  exact ⟨by have h5 := h.1.1; simpa using h5, h.2.1⟩

/-! ### Claim C4 -/

/-- C4 counterexample: the claim's "if and only if" fails on the code — a
message whose tag matches, whose declared total size exceeds the body size
read at the (out-of-bounds) base, with a header evenly divisible into
three 0x40-aligned blocks, is still rejected because the requested base
offset is at or beyond the staging buffer size. -/
theorem C4_counterexample :
    afk_init_rxtx ⟨64, 0, fun _ => 0⟩ false (4294967296 + 3 * 65536) = none ∧
    (4294967296 + 3 * 65536) % 65536 = (⟨64, 0, fun _ => 0⟩ : InitEp).bfr_tag ∧
    readLE (fun _ => 0) 64 4 < 192 ∧
    (192 - readLE (fun _ => 0) 64 4) % 3 = 0 ∧
    64 ≤ (192 - readLE (fun _ => 0) 64 4) / 3 ∧
    ((192 - readLE (fun _ => 0) 64 4) / 3) % 64 = 0 := by
  decide

/-- C4 (amended): provided the buffer is not already initialized and the
described region lies inside the staging buffer, `afk_init_rxtx` accepts
the message and marks the ring ready if and only if the tag matches the
staging tag, the declared total size strictly exceeds the body size read
from the ring's header, the header size (total − body) is divisible by 3,
and the resulting block size is a positive multiple of 0x40. -/
theorem C4_init_rxtx_ready_iff (ep : InitEp) (msg : ℕ)
    (hbase : ((msg / 4294967296) % 65536) * 64 < ep.bfr_size)
    (hend : ((msg / 4294967296) % 65536) * 64 + ((msg / 65536) % 65536) * 64 ≤
      ep.bfr_size) :
    (afk_init_rxtx ep false msg).isSome = true ↔
      (msg % 65536 = ep.bfr_tag ∧
       readLE ep.bfrBytes (((msg / 4294967296) % 65536) * 64) 4 <
         ((msg / 65536) % 65536) * 64 ∧
       (((msg / 65536) % 65536) * 64 -
         readLE ep.bfrBytes (((msg / 4294967296) % 65536) * 64) 4) % 3 = 0 ∧
       64 ≤ (((msg / 65536) % 65536) * 64 -
         readLE ep.bfrBytes (((msg / 4294967296) % 65536) * 64) 4) / 3 ∧
       ((((msg / 65536) % 65536) * 64 -
         readLE ep.bfrBytes (((msg / 4294967296) % 65536) * 64) 4) / 3) % 64 = 0) := by
  unfold afk_init_rxtx
  split_ifs with h1 h2 h3 h4 h5 h6 h7 <;> simp_all <;> omega

/-- C4 witness: a concrete in-bounds message satisfying the amended
conditions is accepted. -/
theorem C4_init_rxtx_ready_iff_witness :
    (afk_init_rxtx ⟨4096, 7, fun i => if i = 0 then 64 else 0⟩ false
      (4 * 65536 + 7)).isSome = true :=
  (C4_init_rxtx_ready_iff ⟨4096, 7, fun i => if i = 0 then 64 else 0⟩ (4 * 65536 + 7)
    (by decide) (by decide)).mpr (by decide)

/-! ### Claim C6 -/

/-- C6 (refuting theorem): the announce handler does not reject an
announce for a channel that already has an enabled service — the
`WARN_ON` only logs.  Starting from a table with one enabled service on
channel 5, an announce naming channel 5 with a known service name leaves
the table with two enabled entries for channel 5, violating the claimed
invariant. -/
theorem C6_duplicate_channel_registered :
    afk_epic_find_service ⟨1, fun _ => ⟨true, 5⟩, [("accel")]⟩ 5 = some 0 ∧
    countEnabled
      (apple_aop_recv_handle_init ⟨1, fun _ => ⟨true, 5⟩, [("accel")]⟩ ("accel") 5 44)
      5 = 2 := by
  constructor
  · rfl
  · rfl

/-! ### Claim C9 -/

/-- C9: a GETBUF message arriving while the staging buffer already exists
returns without allocating, sends no GETBUF_ACK reply, and leaves the
endpoint's staging-buffer state (pointer, size, tag) unchanged. -/
theorem C9_getbuf_existing_noop (ep : GetbufEp) (message dva : ℕ) (allocOk : Bool)
    (h : ep.bfrExists = true) :
    afk_getbuf ep message allocOk dva = (ep, none) := by
  unfold afk_getbuf
  rw [if_pos h]

/-- C9 witness: a concrete endpoint with an existing buffer ignores GETBUF. -/
theorem C9_getbuf_existing_noop_witness :
    afk_getbuf ⟨true, 4096, 7⟩ 123456 true 99 = (⟨true, 4096, 7⟩, none) :=
  C9_getbuf_existing_noop ⟨true, 4096, 7⟩ 123456 99 true rfl

/-! ### Claim C10 -/

/-- C10: in every frame built by `afk_send_epic`, the sub-header's
inline-length field (bytes 50-51 of the frame, read little-endian) equals
the payload length minus 4 when the category is `EPIC_CAT_REPLY` (for
payload lengths where the 16-bit field does not truncate), and equals 0
for every other category. -/
theorem C10_inline_len (seq channel etype ecat stype tag : ℕ) (payload : List ℕ) :
    (ecat = EPIC_CAT_REPLY → 4 ≤ payload.length → payload.length ≤ 65539 →
      (frameBytes seq channel etype ecat stype tag payload).getD 50 0 +
        256 * (frameBytes seq channel etype ecat stype tag payload).getD 51 0 =
        payload.length - 4) ∧
    (ecat ≠ EPIC_CAT_REPLY →
      (frameBytes seq channel etype ecat stype tag payload).getD 50 0 +
        256 * (frameBytes seq channel etype ecat stype tag payload).getD 51 0 = 0) := by
  constructor
  · intro hcat h4 hle
    simp only [frameBytes, qeBytes, ehdrBytes, eshdrBytes, inlineLen, if_pos hcat,
      toLEBytes_two, toLEBytes_four, toLEBytes_eight, replicate_five,
      List.cons_append, List.nil_append, List.singleton_append,
      List.getD_cons_succ, List.getD_cons_zero]
    omega
  · intro hcat
    simp only [frameBytes, qeBytes, ehdrBytes, eshdrBytes, inlineLen, if_neg hcat,
      toLEBytes_two, toLEBytes_four, toLEBytes_eight, replicate_five,
      List.cons_append, List.nil_append, List.singleton_append,
      List.getD_cons_succ, List.getD_cons_zero]

/-- C10 witness: at concrete inputs, a REPLY frame with an 8-byte payload
carries inline length 4, and a REPORT frame carries inline length 0. -/
theorem C10_inline_len_witness :
    ((frameBytes 0 1 2 EPIC_CAT_REPLY 3 4 (List.replicate 8 0)).getD 50 0 +
      256 * (frameBytes 0 1 2 EPIC_CAT_REPLY 3 4 (List.replicate 8 0)).getD 51 0 = 4) ∧
    ((frameBytes 0 1 2 EPIC_CAT_REPORT 3 4 (List.replicate 8 0)).getD 50 0 +
      256 * (frameBytes 0 1 2 EPIC_CAT_REPORT 3 4 (List.replicate 8 0)).getD 51 0 = 0) :=
  ⟨(C10_inline_len 0 1 2 EPIC_CAT_REPLY 3 4 (List.replicate 8 0)).1 rfl (by decide)
      (by decide),
   (C10_inline_len 0 1 2 EPIC_CAT_REPORT 3 4 (List.replicate 8 0)).2 (by decide)⟩

end AFK

